import Mathlib

set_option maxHeartbeats 1000000

/-! Shallow embedding of the livipy order engine (`orders.py`, plus the loader
dispatch in `OrderList.from_file`).  Python strings become `String`, `None`-able
values become `Option`, raised exceptions become `Except String`, and the
contents of a staging directory become the list of filenames currently in it.
The recognized size labels (`Sizes.all`, configured outside the core) are a
`List String` parameter. -/

/-- Decimal digit character, embedding the digits used by Python `str(i)`. -/
def digitChar (n : Nat) : Char :=
  match n with
  | 0 => '0' | 1 => '1' | 2 => '2' | 3 => '3' | 4 => '4'
  | 5 => '5' | 6 => '6' | 7 => '7' | 8 => '8' | 9 => '9'
  | _ => '*'

/-- Numeric value of a decimal digit character. -/
def digitVal (c : Char) : Nat := c.toNat - 48

/-- Fuel-based big-endian decimal rendering of a natural number. -/
def toDecAux : Nat → Nat → List Char
  | 0, _ => []
  | fuel + 1, n => if n = 0 then [] else toDecAux fuel (n / 10) ++ [digitChar (n % 10)]

/-- Embedding of Python `str(i)` for a natural number. -/
def natStr (n : Nat) : String := if n = 0 then "0" else ⟨toDecAux n n⟩

/-- Value of a big-endian list of decimal digit characters. -/
def parseDec (cs : List Char) : Nat := cs.foldl (fun a c => 10 * a + digitVal c) 0

/-- Embedding of Python `str.split(sep)` for a one-character separator. -/
def pySplit (sep : Char) : List Char → List (List Char)
  | [] => [[]]
  | c :: rest =>
    if c = sep then [] :: pySplit sep rest
    else
      match pySplit sep rest with
      | [] => [[c]]
      | p :: ps => (c :: p) :: ps

/-- Embedding of Python tuple unpacking `a, b = parts` of a split result:
succeeds only on exactly two parts, otherwise raises `ValueError`. -/
def unpack2 (parts : List (List Char)) : Except String (List Char × List Char) :=
  match parts with
  | [a, b] => .ok (a, b)
  | [_] => .error "ValueError: not enough values to unpack (expected 2, got 1)"
  | _ => .error "ValueError: too many values to unpack (expected 2)"

/-- The text after the rightmost occurrence of `sep`, if `sep` occurs.
Embeds Python `s.split(sep)[-1]` for the non-self-overlapping separators
used in the source (`"Size:"`, `"Design:"`). -/
def afterLastAux (sep : List Char) : List Char → Option (List Char)
  | [] => none
  | c :: rest =>
    match afterLastAux sep rest with
    | some r => some r
    | none =>
      if sep.isPrefixOf (c :: rest) then some ((c :: rest).drop sep.length) else none

/-- Embedding of Python `s.split(sep)[-1]`: the whole string when `sep` is absent. -/
def afterLast (sep l : List Char) : List Char := (afterLastAux sep l).getD l

/-- Embedding of Python `str.strip()`. -/
def pyStrip (l : List Char) : List Char :=
  ((l.dropWhile Char.isWhitespace).reverse.dropWhile Char.isWhitespace).reverse

/-- Substring test (is `needle` a contiguous part of the second list). -/
def hasSub (needle : List Char) : List Char → Bool
  | [] => needle.isEmpty
  | c :: rest => needle.isPrefixOf (c :: rest) || hasSub needle rest

/-- Split a list at the rightmost occurrence of `sep`:
`some (before, after)` when `sep` occurs, `none` otherwise. -/
def splitAtLast (sep : Char) : List Char → Option (List Char × List Char)
  | [] => none
  | c :: rest =>
    match splitAtLast sep rest with
    | some (a, b) => some (c :: a, b)
    | none => if c = sep then some ([], rest) else none

/-- The stem computed by Python `os.path.splitext(p)[0]` (posix rules: split at
the last dot after the last slash, unless everything before that dot in the
basename consists of dots). -/
def splitextStem (f : String) : String :=
  match splitAtLast '/' f.data with
  | some (d, base) =>
    match splitAtLast '.' base with
    | some (a, _) => if a.any (fun c => !(c == '.')) then ⟨d ++ '/' :: a⟩ else f
    | none => f
  | none =>
    match splitAtLast '.' f.data with
    | some (a, _) => if a.any (fun c => !(c == '.')) then ⟨a⟩ else f
    | none => f

/-- `filename_lookup` from `orders.py`: the first file in the listing whose
`os.path.splitext` stem equals the key. -/
def filename_lookup (filename : String) : List String → Option String
  | [] => none
  | f :: rest => if splitextStem f = filename then some f else filename_lookup filename rest

/-- Case-insensitive match of `c` against an ASCII letter given in both cases. -/
def chEq (c lo up : Char) : Bool := c == lo || c == up

/-- Does the list start with the (case-insensitive) literal `Set Of ` followed
by a digit?  This is where `re.search("Set Of (\d+)", s, re.IGNORECASE)` can
begin a match. -/
def isSetOfHead : List Char → Bool
  | s :: e :: t :: sp1 :: o :: f :: sp2 :: d :: _ =>
    chEq s 's' 'S' && chEq e 'e' 'E' && chEq t 't' 'T' && sp1 == ' '
      && chEq o 'o' 'O' && chEq f 'f' 'F' && sp2 == ' ' && d.isDigit
  | _ => false

/-- Leftmost regex match: scan positions left to right; at the first matching
position take the maximal digit run (greedy `\d+`) and return its value. -/
def setOfSearch : List Char → Option Nat
  | [] => none
  | c :: rest =>
    if isSetOfHead (c :: rest) then
      some (parseDec (((c :: rest).drop 7).takeWhile Char.isDigit))
    else setOfSearch rest

/-- `get_set_size` from `orders.py`: the matched number, or 1 when the pattern
is absent. -/
def get_set_size (s : String) : Nat := (setOfSearch s.data).getD 1

/-- `c` is the letter `lo` in either case. -/
def LowerOf (c lo up : Char) : Prop := c = lo ∨ c = up

/-- Declarative statement that the text contains `Set Of <N>` (case-insensitive
literal, one space each, maximal digit run valued `n`) at some position. -/
def SetOfOccur (cs : List Char) (n : Nat) : Prop :=
  ∃ pre s e t o f ds rest,
    cs = pre ++ s :: e :: t :: ' ' :: o :: f :: ' ' :: (ds ++ rest)
    ∧ LowerOf s 's' 'S' ∧ LowerOf e 'e' 'E' ∧ LowerOf t 't' 'T'
    ∧ LowerOf o 'o' 'O' ∧ LowerOf f 'f' 'F'
    ∧ ds ≠ [] ∧ (∀ c ∈ ds, c.isDigit = true)
    ∧ (∀ c, rest.head? = some c → c.isDigit = false)
    ∧ parseDec ds = n

/-- The `Order` dataclass of `orders.py`. -/
structure Order where
  item_name : String
  deal_name : String
  size : String
  design : String
  quantity : Nat
  sku : Option String
  is_copied : Bool := false
  is_set : Bool := false
  set_size : Nat := 1
  is_valid : Bool := false
  filenames : List (Option String) := []
deriving DecidableEq

/-- Python truthiness of an optional string (`None` and `""` are falsy). -/
def pyTruthy : Option String → Bool
  | none => false
  | some s => !(s == "")

/-- Embedding of Python `all(...)` over the `filenames` list. -/
def pyAll (l : List (Option String)) : Bool := l.all pyTruthy

/-- Constructing an `Order` (dataclass `__init__` plus `__post_init__`): the
size label must belong to the configured enumeration, and `set_size`/`is_set`
are derived from the item name. -/
def Order.make (sizes : List String) (item_name deal_name size design : String)
    (quantity : Nat) (sku : Option String) : Except String Order :=
  if size ∈ sizes then
    .ok { item_name := item_name, deal_name := deal_name, size := size, design := design,
          quantity := quantity, sku := sku, is_copied := false,
          is_set := decide (1 < get_set_size item_name),
          set_size := get_set_size item_name, is_valid := false, filenames := [] }
  else
    .error ("AssertionError: Bad size field. Got " ++ size ++ ", expected one of "
      ++ String.intercalate ", " sizes)

/-- A row extracted from the pick-list PDF (columns fixed in `from_pdf`). -/
structure PdfRow where
  bin : String
  quantity : Nat
  sku : Option String
  item_name : String
  picked : String

/-- A row of the exported CSV manifest. -/
structure CsvRow where
  item_name : String
  size : String
  design : String
  quantity : Nat
  sku : Option String

/-- `Order.from_pdf_row`: split the composite item name on `(` and `,`, recover
the size and design after `Size:`/`Design:`, drop `)`, strip whitespace. -/
def Order.from_pdf_row (sizes : List String) (row : PdfRow) : Except String Order :=
  match unpack2 (pySplit '(' row.item_name.data) with
  | .error e => .error e
  | .ok (deal, other) =>
    match unpack2 (pySplit ',' other) with
    | .error e => .error e
    | .ok (sizePart, designPart) =>
      let size : String :=
        ⟨pyStrip ((afterLast "Size:".data sizePart).filter (fun c => !(c == ')')))⟩
      let design : String :=
        ⟨pyStrip ((afterLast "Design:".data designPart).filter (fun c => !(c == ')')))⟩
      Order.make sizes ⟨pyStrip row.item_name.data⟩ ⟨pyStrip deal⟩ size design
        row.quantity row.sku

/-- The loop body of `OrderList.from_pdf`: convert every row, aborting the
whole load on the first failing row. -/
def ordersFromRows (sizes : List String) : List PdfRow → Except String (List Order)
  | [] => .ok []
  | r :: rs =>
    match Order.from_pdf_row sizes r with
    | .error e => .error e
    | .ok o =>
      match ordersFromRows sizes rs with
      | .error e => .error e
      | .ok os => .ok (o :: os)

/-- The `OrderList` wrapper of `orders.py`. -/
structure OrderList where
  orders : List Order
deriving DecidableEq

/-- `OrderList.from_pdf`, with the externally extracted table rows as input. -/
def OrderList.from_pdf (sizes : List String) (rows : List PdfRow) : Except String OrderList :=
  match ordersFromRows sizes rows with
  | .error e => .error e
  | .ok os => .ok ⟨os⟩

/-- The loop body of `OrderList.from_csv`. -/
def csvOrders (sizes : List String) : List CsvRow → Except String (List Order)
  | [] => .ok []
  | r :: rs =>
    match Order.make sizes r.item_name r.item_name r.size r.design r.quantity r.sku with
    | .error e => .error e
    | .ok o =>
      match csvOrders sizes rs with
      | .error e => .error e
      | .ok os => .ok (o :: os)

/-- `OrderList.from_csv`, with the parsed CSV rows as input. -/
def OrderList.from_csv (sizes : List String) (rows : List CsvRow) : Except String OrderList :=
  match csvOrders sizes rows with
  | .error e => .error e
  | .ok os => .ok ⟨os⟩

/-- Python `filename[-3:]` (the whole string when shorter than three characters). -/
def lastThree (s : String) : String := ⟨s.data.drop (s.data.length - 3)⟩

/-- `OrderList.from_file`: dispatch on the last three characters of the name;
any other extension falls through every branch and yields no value at all. -/
def OrderList.from_file (sizes : List String) (pdfRows : List PdfRow) (csvRows : List CsvRow)
    (filename : String) : Option (Except String OrderList) :=
  if lastThree filename = "pdf" then some (OrderList.from_pdf sizes pdfRows)
  else if lastThree filename = "csv" then some (OrderList.from_csv sizes csvRows)
  else none

/-- `string.ascii_lowercase` from the Python standard library. -/
def asciiLowercase : List Char := "abcdefghijklmnopqrstuvwxyz".data

/-- The `i`-th lowercase letter (total version used only in specifications). -/
def letterOf (i : Nat) : Char := (asciiLowercase.get? i).getD '?'

/-- The lookup loop of the set branch of `confirm_filename`:
`filename_lookup(self.sku + string.ascii_lowercase[i], ...)` for `i` in
`range(set_size)`, raising `IndexError` past letter 26 and `TypeError` when the
SKU is `None`. -/
def setLookupsSeq (L : List String) (sku : Option String) :
    Nat → Nat → Except String (List (Option String))
  | _, 0 => .ok []
  | i, m + 1 =>
    match asciiLowercase.get? i with
    | none => .error "IndexError: string index out of range"
    | some c =>
      match sku with
      | none => .error "TypeError: unsupported operand type for +: NoneType and str"
      | some s =>
        match setLookupsSeq L sku (i + 1) m with
        | .error e => .error e
        | .ok rest => .ok (filename_lookup (s.push c) L :: rest)

/-- The single lookup of the non-set branch of `confirm_filename`
(`filename_lookup(self.sku, ...)`); a `None` SKU compares equal to no stem,
so it simply fails to resolve. -/
def skuLookup (L : List String) (sku : Option String) : Option String :=
  match sku with
  | some s => filename_lookup s L
  | none => none

/-- `Order.confirm_filename` against a directory-listing snapshot `L`: append
the lookup results to `filenames` and recompute `is_valid = all(filenames)`. -/
def Order.confirm_filename (L : List String) (o : Order) : Except String Order :=
  if o.is_set then
    match setLookupsSeq L o.sku 0 o.set_size with
    | .error e => .error e
    | .ok r =>
      .ok { o with filenames := o.filenames ++ r, is_valid := pyAll (o.filenames ++ r) }
  else
    .ok { o with
          filenames := o.filenames ++ [skuLookup L o.sku]
          is_valid := pyAll (o.filenames ++ [skuLookup L o.sku]) }

/-- The loop of `OrderList.confirm_filenames` over all orders. -/
def confirmAll (L : List String) : List Order → Except String (List Order)
  | [] => .ok []
  | o :: os =>
    match Order.confirm_filename L o with
    | .error e => .error e
    | .ok o' =>
      match confirmAll L os with
      | .error e => .error e
      | .ok os' => .ok (o' :: os')

/-- `OrderList.confirm_filenames`: reconcile every order, returning the count
of invalid rows together with the updated orders. -/
def OrderList.confirm_filenames (L : List String) (ol : OrderList) :
    Except String (Nat × OrderList) :=
  match confirmAll L ol.orders with
  | .error e => .error e
  | .ok os => .ok ((os.filter (fun o => !o.is_valid)).length, ⟨os⟩)

/-- Destination name `<stem>_<i>.<ext>` used by `_copy_once`. -/
def destName (stem ext : String) (i : Nat) : String :=
  stem ++ "_" ++ natStr i ++ "." ++ ext

/-- The `while os.path.exists(...)` scan of `_copy_once`: starting at `i`,
return the first index whose destination name is not in the directory
(`fuel` bounds the scan; `st.length + 1` always suffices). -/
def findFree (stem ext : String) (st : List String) : Nat → Nat → Nat
  | i, 0 => i
  | i, fuel + 1 =>
    if destName stem ext i ∈ st then findFree stem ext st (i + 1) fuel else i

/-- The suffix index chosen for one copy: the scan starting at 1. -/
def chooseIdx (stem ext : String) (st : List String) : Nat :=
  findFree stem ext st 1 (st.length + 1)

/-- One `shutil.copy` into the staging directory: the directory gains the
freshly chosen destination name. -/
def copyFile (stem ext : String) (st : List String) : List String :=
  st ++ [destName stem ext (chooseIdx stem ext st)]

/-- The body of `_copy_once`: for each resolved filename, split it on `.` into
exactly a stem and an extension (raising `ValueError` otherwise, and
`AttributeError` on a `None` slot), then copy with a fresh suffix. -/
def copyFiles : List (Option String) → List String → Except String (List String)
  | [], st => .ok st
  | none :: _, _ => .error "AttributeError: NoneType object has no attribute split"
  | some f :: rest, st =>
    match pySplit '.' f.data with
    | [a, b] => copyFiles rest (copyFile ⟨a⟩ ⟨b⟩ st)
    | [_] => .error "ValueError: not enough values to unpack (expected 2, got 1)"
    | _ => .error "ValueError: too many values to unpack (expected 2)"

/-- `Order._copy_once` acting on the staging-directory state. -/
def Order.copy_once (o : Order) (st : List String) : Except String (List String) :=
  copyFiles o.filenames st

/-- The `for _ in range(quantity)` loop of `copy_to_temp`. -/
def copyTimes (fns : List (Option String)) : Nat → List String → Except String (List String)
  | 0, st => .ok st
  | k + 1, st =>
    match copyFiles fns st with
    | .error e => .error e
    | .ok st' => copyTimes fns k st'

/-- `Order.copy_to_temp`: skip invalid orders, otherwise copy every resolved
filename `quantity` times. -/
def Order.copy_to_temp (o : Order) (st : List String) : Except String (List String) :=
  if o.is_valid then copyTimes o.filenames o.quantity st else .ok st

/-- Concrete valid order used to exercise the double-run staging example. -/
def c1Order : Order :=
  { item_name := "Art Print", deal_name := "Art Print", size := "8x10", design := "d",
    quantity := 2, sku := some "F", is_copied := false, is_set := false, set_size := 1,
    is_valid := true, filenames := [some "F.pdf"] }

/-- Concrete set order with 27 required variants (for the letter-index limit). -/
def c3BadOrder : Order :=
  { item_name := "Set Of 27 Ornaments", deal_name := "Ornaments", size := "8x10",
    design := "d", quantity := 1, sku := some "Z", is_copied := false, is_set := true,
    set_size := 27, is_valid := false, filenames := [] }

/-- Concrete set order used as witness input for reconciliation. -/
def c3Order : Order :=
  { item_name := "Set Of 2 Prints", deal_name := "Prints", size := "8x10",
    design := "d", quantity := 1, sku := some "x", is_copied := false, is_set := true,
    set_size := 2, is_valid := false, filenames := [] }

/-- Concrete valid order whose resolved filename has no dot. -/
def c4Order : Order :=
  { item_name := "Mug", deal_name := "Mug", size := "8x10", design := "d",
    quantity := 1, sku := some "abc", is_copied := false, is_set := false, set_size := 1,
    is_valid := true, filenames := [some "abc"] }

/-- Concrete valid order with a well-formed resolved filename. -/
def c4GoodOrder : Order :=
  { item_name := "Card", deal_name := "Card", size := "8x10", design := "d",
    quantity := 3, sku := some "G", is_copied := false, is_set := false, set_size := 1,
    is_valid := true, filenames := [some "G.pdf"] }

/-- Concrete set order used as witness input for crash-free reconciliation. -/
def c6Order : Order :=
  { item_name := "Set Of 3 Cards", deal_name := "Cards", size := "8x10",
    design := "d", quantity := 1, sku := some "K", is_copied := false, is_set := true,
    set_size := 3, is_valid := false, filenames := [] }

/-- Concrete fresh order used for the reconciliation idempotence question. -/
def c7Order : Order :=
  { item_name := "Poster", deal_name := "Poster", size := "8x10", design := "d",
    quantity := 1, sku := some "A", is_copied := false, is_set := false, set_size := 1,
    is_valid := false, filenames := [] }

/-- `c7Order` after one reconciliation against `["A.pdf"]`. -/
def c7Once : Order :=
  { c7Order with filenames := [some "A.pdf"], is_valid := true }

/-- `c7Order` after two reconciliations against `["A.pdf"]`. -/
def c7Twice : Order :=
  { c7Order with filenames := [some "A.pdf", some "A.pdf"], is_valid := true }

/-- Concrete PDF row whose composite item name lacks the `(` delimiter. -/
def c8Row : PdfRow :=
  { bin := "1", quantity := 2, sku := some "ZQ99X", item_name := "Widget", picked := "x" }

/-- Concrete valid order whose resolved filename has two dots. -/
def c9Order : Order :=
  { item_name := "Tag", deal_name := "Tag", size := "8x10", design := "d",
    quantity := 1, sku := some "a.b", is_copied := false, is_set := false, set_size := 1,
    is_valid := true, filenames := [some "a.b.pdf"] }

/-! ### Decimal strings and destination names -/

theorem parseDec_append (cs : List Char) (c : Char) :
    parseDec (cs ++ [c]) = 10 * parseDec cs + digitVal c := by
  simp [parseDec, List.foldl_append]

theorem digitVal_digitChar (n : Nat) (h : n < 10) : digitVal (digitChar n) = n := by
  interval_cases n <;> rfl

theorem toDecAux_parse : ∀ fuel n, n ≤ fuel → parseDec (toDecAux fuel n) = n := by
  intro fuel
  induction fuel with
  | zero =>
    intro n h
    interval_cases n
    rfl
  | succ fuel ih =>
    intro n h
    by_cases h0 : n = 0
    · subst h0
      simp [toDecAux, parseDec]
    · have hlt : n / 10 < n := Nat.div_lt_self (Nat.pos_of_ne_zero h0) (by norm_num)
      have hle : n / 10 ≤ fuel := by omega
      simp only [toDecAux, h0, if_false]
      rw [parseDec_append, ih _ hle, digitVal_digitChar _ (Nat.mod_lt _ (by norm_num))]
      omega

theorem natStr_parse (n : Nat) : parseDec (natStr n).data = n := by
  by_cases h : n = 0
  · subst h
    rfl
  · simp only [natStr, h, if_false]
    exact toDecAux_parse n n le_rfl

theorem natStr_inj : Function.Injective natStr := by
  intro m n h
  have := congrArg (fun s => parseDec s.data) h
  simpa [natStr_parse] using this

theorem str_eq_of_data (a b : String) (h : a.data = b.data) : a = b := by
  cases a
  cases b
  exact congrArg String.mk h

theorem strApp_data (a b : String) : (a ++ b).data = a.data ++ b.data := by
  cases a
  cases b
  rfl

theorem destName_data (stem ext : String) (i : Nat) :
    (destName stem ext i).data
      = stem.data ++ '_' :: ((natStr i).data ++ '.' :: ext.data) := by
  simp [destName, strApp_data]

theorem destName_inj (stem ext : String) : Function.Injective (destName stem ext) := by
  intro i j h
  have hd := congrArg String.data h
  rw [destName_data, destName_data] at hd
  have h1 : '_' :: ((natStr i).data ++ '.' :: ext.data)
      = '_' :: ((natStr j).data ++ '.' :: ext.data) :=
    (List.append_inj hd rfl).2
  have h2 : (natStr i).data ++ '.' :: ext.data = (natStr j).data ++ '.' :: ext.data := by
    injection h1
  have hlen : (natStr i).data.length = (natStr j).data.length := by
    have := congrArg List.length h2
    rw [List.length_append, List.length_append] at this
    omega
  have h3 : (natStr i).data = (natStr j).data := (List.append_inj h2 hlen).1
  exact natStr_inj (str_eq_of_data _ _ h3)

theorem exists_free (stem ext : String) (st : List String) (i : Nat) :
    ∃ k, k ≤ st.length ∧ destName stem ext (i + k) ∉ st := by
  by_contra hc
  push_neg at hc
  have hinj : Function.Injective fun k => destName stem ext (i + k) := by
    intro a b hab
    have := destName_inj stem ext hab
    omega
  have hsub : (Finset.range (st.length + 1)).image (fun k => destName stem ext (i + k))
      ⊆ st.toFinset := by
    intro x hx
    simp only [Finset.mem_image, Finset.mem_range] at hx
    obtain ⟨k, hk, rfl⟩ := hx
    exact List.mem_toFinset.mpr (hc k (by omega))
  have hcard := Finset.card_le_card hsub
  rw [Finset.card_image_of_injective _ hinj, Finset.card_range] at hcard
  have := st.toFinset_card_le
  omega

theorem findFree_spec (stem ext : String) (st : List String) :
    ∀ fuel i, (∃ k, k < fuel ∧ destName stem ext (i + k) ∉ st) →
      i ≤ findFree stem ext st i fuel
      ∧ destName stem ext (findFree stem ext st i fuel) ∉ st
      ∧ ∀ j, i ≤ j → j < findFree stem ext st i fuel → destName stem ext j ∈ st := by
  intro fuel
  induction fuel with
  | zero =>
    intro i h
    obtain ⟨k, hk, _⟩ := h
    omega
  | succ fuel ih =>
    intro i h
    obtain ⟨k, hk, hfree⟩ := h
    by_cases hmem : destName stem ext i ∈ st
    · have hk0 : k ≠ 0 := by
        rintro rfl
        exact hfree hmem
      have hex : ∃ kk, kk < fuel ∧ destName stem ext (i + 1 + kk) ∉ st := by
        refine ⟨k - 1, by omega, ?_⟩
        have harith : i + 1 + (k - 1) = i + k := by omega
        rw [harith]
        exact hfree
      obtain ⟨h1, h2, h3⟩ := ih (i + 1) hex
      have hred : findFree stem ext st i (fuel + 1) = findFree stem ext st (i + 1) fuel := by
        simp [findFree, hmem]
      rw [hred]
      refine ⟨by omega, h2, ?_⟩
      intro j hij hjlt
      rcases Nat.eq_or_lt_of_le hij with heq | hlt
      · rw [← heq]
        exact hmem
      · exact h3 j (by omega) hjlt
    · have hred : findFree stem ext st i (fuel + 1) = i := by
        simp [findFree, hmem]
      rw [hred]
      exact ⟨le_rfl, hmem, fun j h1 h2 => absurd (lt_of_le_of_lt h1 h2) (lt_irrefl i)⟩

theorem chooseIdx_spec (stem ext : String) (st : List String) :
    1 ≤ chooseIdx stem ext st
    ∧ destName stem ext (chooseIdx stem ext st) ∉ st
    ∧ ∀ m, 1 ≤ m → m < chooseIdx stem ext st → destName stem ext m ∈ st := by
  obtain ⟨k, hk, hfree⟩ := exists_free stem ext st 1
  exact findFree_spec stem ext st (st.length + 1) 1 ⟨k, by omega, hfree⟩

/-! ### The copy loops -/

theorem pySplit_ne_nil (sep : Char) : ∀ l, pySplit sep l ≠ [] := by
  intro l
  induction l with
  | nil => simp [pySplit]
  | cons c rest ih =>
    simp only [pySplit]
    by_cases h : c = sep
    · simp [h]
    · simp only [h, if_false]
      cases hr : pySplit sep rest with
      | nil => exact absurd hr ih
      | cons p ps => simp

theorem pySplit_length (sep : Char) : ∀ l, (pySplit sep l).length = l.count sep + 1 := by
  intro l
  induction l with
  | nil => simp [pySplit]
  | cons c rest ih =>
    simp only [pySplit]
    by_cases h : c = sep
    · subst h
      simp [List.count_cons, ih]
    · simp only [h, if_false]
      cases hr : pySplit sep rest with
      | nil => exact absurd hr (pySplit_ne_nil sep rest)
      | cons p ps =>
        rw [hr] at ih
        simp only [List.length_cons] at ih ⊢
        rw [List.count_cons]
        simp [h, ih]

theorem copyFile_eq (stem ext : String) (st : List String) :
    copyFile stem ext st = st ++ [destName stem ext (chooseIdx stem ext st)] := rfl

theorem copyFile_nodup (stem ext : String) (st : List String) (h : st.Nodup) :
    (copyFile stem ext st).Nodup := by
  rw [copyFile_eq, List.nodup_append]
  refine ⟨h, List.nodup_singleton _, ?_⟩
  intro a ha hb
  rw [List.mem_singleton] at hb
  subst hb
  exact (chooseIdx_spec stem ext st).2.1 ha

theorem copyFiles_extends :
    ∀ (fns : List (Option String)) (st st' : List String), copyFiles fns st = .ok st' →
      (∃ t, st' = st ++ t) ∧ st'.length = st.length + fns.length
        ∧ (st.Nodup → st'.Nodup) := by
  intro fns
  induction fns with
  | nil =>
    intro st st' h
    simp only [copyFiles, Except.ok.injEq] at h
    subst h
    exact ⟨⟨[], by simp⟩, by simp, fun h => h⟩
  | cons x rest ih =>
    intro st st' h
    cases x with
    | none => simp [copyFiles] at h
    | some f =>
      simp only [copyFiles] at h
      rcases hsp : pySplit '.' f.data with _ | ⟨a, _ | ⟨b, _ | _⟩⟩ <;> rw [hsp] at h
      · exact absurd hsp (pySplit_ne_nil '.' f.data)
      · exact absurd h (by simp)
      · obtain ⟨⟨t, ht⟩, hlen, hnd⟩ := ih (copyFile ⟨a⟩ ⟨b⟩ st) st' h
        rw [copyFile_eq] at ht hlen
        refine ⟨⟨destName ⟨a⟩ ⟨b⟩ (chooseIdx ⟨a⟩ ⟨b⟩ st) :: t, by simp [ht]⟩, ?_, ?_⟩
        · simp at hlen
          simp [hlen]
          omega
        · intro hst
          exact hnd (copyFile_nodup _ _ _ hst)
      · exact absurd h (by simp)

theorem copyTimes_extends :
    ∀ (q : Nat) (fns : List (Option String)) (st st' : List String),
      copyTimes fns q st = .ok st' →
      (∃ t, st' = st ++ t) ∧ st'.length = st.length + q * fns.length
        ∧ (st.Nodup → st'.Nodup) := by
  intro q
  induction q with
  | zero =>
    intro fns st st' h
    simp only [copyTimes, Except.ok.injEq] at h
    subst h
    exact ⟨⟨[], by simp⟩, by simp, fun h => h⟩
  | succ k ih =>
    intro fns st st' h
    simp only [copyTimes] at h
    cases h1 : copyFiles fns st with
    | error e => rw [h1] at h; exact absurd h (by simp)
    | ok st1 =>
      rw [h1] at h
      obtain ⟨⟨t1, ht1⟩, hlen1, hnd1⟩ := copyFiles_extends fns st st1 h1
      obtain ⟨⟨t2, ht2⟩, hlen2, hnd2⟩ := ih fns st1 st' h
      refine ⟨⟨t1 ++ t2, by rw [ht2, ht1, List.append_assoc]⟩, ?_, fun hst => hnd2 (hnd1 hst)⟩
      rw [hlen2, hlen1, Nat.succ_mul]
      omega

theorem copyFiles_ok :
    ∀ (fns : List (Option String)),
      (∀ x ∈ fns, ∃ s a b, x = some s ∧ pySplit '.' s.data = [a, b]) →
      ∀ st, ∃ st', copyFiles fns st = .ok st' := by
  intro fns
  induction fns with
  | nil => exact fun _ st => ⟨st, rfl⟩
  | cons x rest ih =>
    intro h st
    obtain ⟨s, a, b, hx, hsp⟩ := h x (by simp)
    subst hx
    have hrest : ∀ y ∈ rest, ∃ s a b, y = some s ∧ pySplit '.' s.data = [a, b] :=
      fun y hy => h y (by simp [hy])
    obtain ⟨st', hst'⟩ := ih hrest (copyFile ⟨a⟩ ⟨b⟩ st)
    exact ⟨st', by simp only [copyFiles, hsp]; exact hst'⟩

theorem copyTimes_ok :
    ∀ (q : Nat) (fns : List (Option String)),
      (∀ x ∈ fns, ∃ s a b, x = some s ∧ pySplit '.' s.data = [a, b]) →
      ∀ st, ∃ st', copyTimes fns q st = .ok st' := by
  intro q
  induction q with
  | zero => exact fun fns _ st => ⟨st, rfl⟩
  | succ k ih =>
    intro fns h st
    obtain ⟨st1, h1⟩ := copyFiles_ok fns h st
    obtain ⟨st', h2⟩ := ih fns h st1
    exact ⟨st', by simp only [copyTimes, h1]; exact h2⟩

theorem copyFiles_err :
    ∀ (fns : List (Option String)) (st : List String) (f : String),
      some f ∈ fns → (∀ a b, pySplit '.' f.data ≠ [a, b]) →
      ∃ e, copyFiles fns st = .error e := by
  intro fns
  induction fns with
  | nil => simp
  | cons x rest ih =>
    intro st f hmem hbad
    cases x with
    | none => exact ⟨_, rfl⟩
    | some g =>
      rcases hsp : pySplit '.' g.data with _ | ⟨a, _ | ⟨b, _ | _⟩⟩
      · exact absurd hsp (pySplit_ne_nil '.' g.data)
      · exact ⟨"ValueError: not enough values to unpack (expected 2, got 1)",
          by simp only [copyFiles, hsp]⟩
      · rcases List.mem_cons.mp hmem with heq | hrest
        · have : f = g := by injection heq
          subst this
          exact absurd hsp (hbad a b)
        · obtain ⟨e, he⟩ := ih (copyFile ⟨a⟩ ⟨b⟩ st) f hrest hbad
          exact ⟨e, by simp only [copyFiles, hsp]; exact he⟩
      · exact ⟨"ValueError: too many values to unpack (expected 2)",
          by simp only [copyFiles, hsp]⟩

theorem count_ne_one_no_unpack (f : String) (h : f.data.count '.' ≠ 1) :
    ∀ a b, pySplit '.' f.data ≠ [a, b] := by
  intro a b hab
  have := pySplit_length '.' f.data
  rw [hab] at this
  simp at this
  omega

/-! ### The set-size search -/

theorem takeWhile_prop {α : Type} (p : α → Bool) :
    ∀ (l : List α), ∀ a ∈ l.takeWhile p, p a = true := by
  intro l
  induction l with
  | nil => simp
  | cons c rest ih =>
    intro a ha
    rw [List.takeWhile_cons] at ha
    by_cases hc : p c = true
    · rw [if_pos hc] at ha
      rcases List.mem_cons.mp ha with rfl | hmem
      · exact hc
      · exact ih a hmem
    · rw [if_neg hc] at ha
      exact absurd ha (List.not_mem_nil a)

theorem dropWhile_head {α : Type} (p : α → Bool) :
    ∀ (l : List α), ∀ a, (l.dropWhile p).head? = some a → p a = false := by
  intro l
  induction l with
  | nil => simp
  | cons c rest ih =>
    intro a ha
    rw [List.dropWhile_cons] at ha
    by_cases hc : p c = true
    · rw [if_pos hc] at ha
      exact ih a ha
    · rw [if_neg hc] at ha
      simp only [List.head?_cons, Option.some.injEq] at ha
      subst ha
      simpa using hc

theorem chEq_iff (c lo up : Char) : chEq c lo up = true ↔ (c = lo ∨ c = up) := by
  simp [chEq]

theorem setOfSearch_sound :
    ∀ (cs : List Char) (v : Nat), setOfSearch cs = some v → SetOfOccur cs v := by
  intro cs
  induction cs with
  | nil => simp [setOfSearch]
  | cons c rest ih =>
    intro v hv
    by_cases hh : isSetOfHead (c :: rest) = true
    · rcases rest with _ | ⟨e, rest⟩ <;> try simp [isSetOfHead] at hh
      rcases rest with _ | ⟨t, rest⟩ <;> try simp [isSetOfHead] at hh
      rcases rest with _ | ⟨sp1, rest⟩ <;> try simp [isSetOfHead] at hh
      rcases rest with _ | ⟨o, rest⟩ <;> try simp [isSetOfHead] at hh
      rcases rest with _ | ⟨f, rest⟩ <;> try simp [isSetOfHead] at hh
      rcases rest with _ | ⟨sp2, rest⟩ <;> try simp [isSetOfHead] at hh
      rcases rest with _ | ⟨d, tl⟩ <;> try simp [isSetOfHead] at hh
      obtain ⟨⟨⟨⟨⟨⟨⟨hc, he⟩, ht⟩, hsp1⟩, ho⟩, hf⟩, hsp2⟩, hd⟩ := hh
      subst hsp1
      subst hsp2
      have hred : setOfSearch (c :: e :: t :: ' ' :: o :: f :: ' ' :: d :: tl)
          = some (parseDec ((d :: tl).takeWhile Char.isDigit)) := by
        rw [setOfSearch]
        rw [if_pos]
        · rfl
        · simp [isSetOfHead, hc, he, ht, ho, hf, hd]
      rw [hred] at hv
      have hv' : v = parseDec ((d :: tl).takeWhile Char.isDigit) := by
        injection hv
        omega
      refine ⟨[], c, e, t, o, f, (d :: tl).takeWhile Char.isDigit,
        (d :: tl).dropWhile Char.isDigit, ?_, ?_, ?_, ?_, ?_, ?_, ?_, ?_, ?_, hv'.symm⟩
      · rw [List.takeWhile_append_dropWhile]
        simp
      · exact (chEq_iff c 's' 'S').mp hc
      · exact (chEq_iff e 'e' 'E').mp he
      · exact (chEq_iff t 't' 'T').mp ht
      · exact (chEq_iff o 'o' 'O').mp ho
      · exact (chEq_iff f 'f' 'F').mp hf
      · simp [List.takeWhile_cons, hd]
      · exact takeWhile_prop Char.isDigit (d :: tl)
      · exact dropWhile_head Char.isDigit (d :: tl)
    · have hred : setOfSearch (c :: rest) = setOfSearch rest := by
        rw [setOfSearch]
        rw [if_neg hh]
      rw [hred] at hv
      obtain ⟨pre, s, e, t, o, f, ds, tl, hcs, h1, h2, h3, h4, h5, h6, h7, h8, h9⟩ := ih v hv
      exact ⟨c :: pre, s, e, t, o, f, ds, tl, by simp [hcs], h1, h2, h3, h4, h5, h6, h7, h8, h9⟩

theorem setOfSearch_complete :
    ∀ (cs : List Char) (n : Nat), SetOfOccur cs n → setOfSearch cs ≠ none := by
  intro cs n h
  obtain ⟨pre, s, e, t, o, f, ds, rest, hcs, hs, he, ht, ho, hf, hne, hdg, hrest, _⟩ := h
  revert hcs
  induction pre generalizing cs with
  | nil =>
    intro hcs
    subst hcs
    cases ds with
    | nil => exact absurd rfl hne
    | cons d tl =>
      have hd : d.isDigit = true := hdg d (by simp)
      have hhead : isSetOfHead (s :: e :: t :: ' ' :: o :: f :: ' ' :: ((d :: tl) ++ rest))
          = true := by
        simp only [List.cons_append, isSetOfHead]
        rcases hs with rfl | rfl <;> rcases he with rfl | rfl <;> rcases ht with rfl | rfl <;>
          rcases ho with rfl | rfl <;> rcases hf with rfl | rfl <;> simp [chEq, hd]
      simp only [List.nil_append]
      rw [setOfSearch, if_pos hhead]
      simp
  | cons p pre' ih =>
    intro hcs
    subst hcs
    by_cases hh : isSetOfHead (p :: (pre' ++ s :: e :: t :: ' ' :: o :: f :: ' '
        :: (ds ++ rest))) = true
    · rw [List.cons_append, setOfSearch, if_pos hh]
      simp
    · rw [List.cons_append, setOfSearch, if_neg hh]
      exact ih (pre' ++ s :: e :: t :: ' ' :: o :: f :: ' ' :: (ds ++ rest)) rfl

/-! ### Filename lookup -/

theorem filename_lookup_some :
    ∀ (k : String) (L : List String) (f : String),
      filename_lookup k L = some f ↔
        ∃ l1 l2, L = l1 ++ f :: l2 ∧ splitextStem f = k ∧ ∀ g ∈ l1, splitextStem g ≠ k := by
  intro k L
  induction L with
  | nil =>
    intro f
    constructor
    · intro h
      simp [filename_lookup] at h
    · rintro ⟨l1, l2, heq, -, -⟩
      exact absurd heq (by simp)
  | cons x rest ih =>
    intro f
    by_cases hx : splitextStem x = k
    · rw [show filename_lookup k (x :: rest) = some x from by simp [filename_lookup, hx]]
      constructor
      · intro h
        have hfx : x = f := by injection h
        subst hfx
        exact ⟨[], rest, rfl, hx, by simp⟩
      · rintro ⟨l1, l2, heq, hf, hall⟩
        cases l1 with
        | nil =>
          simp only [List.nil_append, List.cons.injEq] at heq
          rw [heq.1]
        | cons g l1 =>
          simp only [List.cons_append, List.cons.injEq] at heq
          exact absurd (heq.1 ▸ hx) (hall g (by simp))
    · rw [show filename_lookup k (x :: rest) = filename_lookup k rest from
        by simp [filename_lookup, hx]]
      rw [ih f]
      constructor
      · rintro ⟨l1, l2, heq, hf, hall⟩
        refine ⟨x :: l1, l2, by simp [heq], hf, ?_⟩
        intro g hg
        rcases List.mem_cons.mp hg with rfl | hmem
        · exact hx
        · exact hall g hmem
      · rintro ⟨l1, l2, heq, hf, hall⟩
        cases l1 with
        | nil =>
          simp only [List.nil_append, List.cons.injEq] at heq
          exact absurd (heq.1 ▸ hf) hx
        | cons g l1 =>
          simp only [List.cons_append, List.cons.injEq] at heq
          exact ⟨l1, l2, heq.2, hf, fun g' hg' => hall g' (by simp [hg'])⟩

theorem filename_lookup_none :
    ∀ (k : String) (L : List String),
      filename_lookup k L = none ↔ ∀ f ∈ L, splitextStem f ≠ k := by
  intro k L
  induction L with
  | nil => simp [filename_lookup]
  | cons x rest ih =>
    by_cases hx : splitextStem x = k
    · rw [show filename_lookup k (x :: rest) = some x from by simp [filename_lookup, hx]]
      simp only [List.mem_cons]
      constructor
      · intro h
        exact absurd h (by simp)
      · intro h
        exact absurd hx (h x (Or.inl rfl))
    · rw [show filename_lookup k (x :: rest) = filename_lookup k rest from
        by simp [filename_lookup, hx]]
      rw [ih]
      constructor
      · intro h f hf
        rcases List.mem_cons.mp hf with rfl | hmem
        · exact hx
        · exact h f hmem
      · intro h f hf
        exact h f (by simp [hf])

theorem lookup_mem (k : String) :
    ∀ (L : List String) (f : String), filename_lookup k L = some f → f ∈ L := by
  intro L
  induction L with
  | nil => simp [filename_lookup]
  | cons x rest ih =>
    intro f h
    by_cases hx : splitextStem x = k
    · simp only [filename_lookup, hx, if_pos] at h
      have : x = f := by injection h
      simp [this]
    · simp only [filename_lookup, hx, if_neg, if_false] at h
      exact List.mem_cons_of_mem x (ih f h)

/-! ### Reconciliation -/

theorem ascii_get (i : Nat) (h : i < 26) : asciiLowercase.get? i = some (letterOf i) := by
  have hlen : i < asciiLowercase.length := by
    rw [show asciiLowercase.length = 26 from rfl]
    exact h
  rw [letterOf, List.get?_eq_get hlen]
  rfl

theorem setLookupsSeq_ok (L : List String) (s : String) :
    ∀ (m i : Nat), i + m ≤ 26 →
      setLookupsSeq L (some s) i m
        = .ok ((List.range m).map (fun k => filename_lookup (s.push (letterOf (i + k))) L)) := by
  intro m
  induction m with
  | zero =>
    intro i h
    simp [setLookupsSeq]
  | succ m ih =>
    intro i h
    have hi : i < 26 := by omega
    have hrec := ih (i + 1) (by omega)
    simp only [setLookupsSeq, ascii_get i hi, hrec]
    congr 1
    rw [List.range_succ_eq_map]
    simp only [List.map_cons, List.map_map, Nat.add_zero]
    have hfun : ((fun k => filename_lookup (s.push (letterOf (i + k))) L) ∘ Nat.succ)
        = (fun k => filename_lookup (s.push (letterOf (i + 1 + k))) L) := by
      funext k
      show filename_lookup (s.push (letterOf (i + Nat.succ k))) L
        = filename_lookup (s.push (letterOf (i + 1 + k))) L
      have h' : i + Nat.succ k = i + 1 + k := by omega
      rw [h']
    rw [hfun]

theorem pyAll_iff (L : List String) (hL : "" ∉ L) (fns : List (Option String))
    (hf : ∀ x ∈ fns, ∀ f, x = some f → f ∈ L) :
    pyAll fns = true ↔ ∀ x ∈ fns, ∃ f, x = some f := by
  constructor
  · intro h x hx
    have ht := List.all_eq_true.mp h x hx
    cases x with
    | none => simp [pyTruthy] at ht
    | some s => exact ⟨s, rfl⟩
  · intro h
    rw [pyAll, List.all_eq_true]
    intro x hx
    obtain ⟨f, rfl⟩ := h x hx
    have hfL : f ∈ L := hf _ hx f rfl
    have hne : ¬(f = "") := fun he => hL (he ▸ hfL)
    simp [pyTruthy, hne]

theorem pyAll_of_none (fns : List (Option String)) (h : (none : Option String) ∈ fns) :
    pyAll fns = false := by
  cases hp : pyAll fns
  · rfl
  · have := List.all_eq_true.mp hp (none : Option String) h
    simp [pyTruthy] at this

theorem pyAll_append (a b : List (Option String)) :
    pyAll (a ++ b) = (pyAll a && pyAll b) := by
  simp [pyAll]

theorem confirm_set_eq (L : List String) (o : Order) (s : String) (r : List (Option String))
    (hset : o.is_set = true) (hsku : o.sku = some s)
    (hseq : setLookupsSeq L (some s) 0 o.set_size = .ok r) :
    Order.confirm_filename L o
      = .ok { o with
              filenames := o.filenames ++ r
              is_valid := pyAll (o.filenames ++ r) } := by
  rw [Order.confirm_filename, if_pos hset, hsku, hseq]

theorem confirm_nonset_eq (L : List String) (o : Order) (hset : o.is_set = false) :
    Order.confirm_filename L o
      = .ok { o with
              filenames := o.filenames ++ [skuLookup L o.sku]
              is_valid := pyAll (o.filenames ++ [skuLookup L o.sku]) } := by
  rw [Order.confirm_filename, if_neg (by simp [hset])]

/-! ### The manifest loader -/

theorem ordersFromRows_err (sizes : List String) :
    ∀ (rows : List PdfRow),
      (∃ r ∈ rows, ∃ e, Order.from_pdf_row sizes r = .error e) →
      ∃ e, ordersFromRows sizes rows = .error e := by
  intro rows
  induction rows with
  | nil => simp
  | cons r0 rs ih =>
    rintro ⟨r, hr, e, he⟩
    rcases List.mem_cons.mp hr with rfl | hmem
    · exact ⟨e, by simp only [ordersFromRows, he]⟩
    · cases h0 : Order.from_pdf_row sizes r0 with
      | error e0 => exact ⟨e0, by simp only [ordersFromRows, h0]⟩
      | ok o0 =>
        obtain ⟨e1, he1⟩ := ih ⟨r, hmem, e, he⟩
        exact ⟨e1, by simp only [ordersFromRows, h0, he1]⟩

theorem ordersFromRows_len (sizes : List String) :
    ∀ (rows : List PdfRow) (os : List Order),
      ordersFromRows sizes rows = .ok os → os.length = rows.length := by
  intro rows
  induction rows with
  | nil =>
    intro os h
    simp only [ordersFromRows, Except.ok.injEq] at h
    simp [← h]
  | cons r0 rs ih =>
    intro os h
    cases h0 : Order.from_pdf_row sizes r0 with
    | error e0 => rw [ordersFromRows, h0] at h; exact absurd h (by simp)
    | ok o0 =>
      rw [ordersFromRows, h0] at h
      cases h1 : ordersFromRows sizes rs with
      | error e1 => rw [h1] at h; exact absurd h (by simp)
      | ok os1 =>
        rw [h1] at h
        simp only [Except.ok.injEq] at h
        subst h
        simp [ih os1 h1]

/-! ### Claim theorems -/

/-- Claim C1: every individual staged copy chooses the smallest positive suffix
index whose destination name is absent from the staging directory, re-checked
against the current directory state before each copy; staging therefore only
appends fresh names (never overwriting an existing file), and two successive
runs on a valid quantity-2 order produce the four distinct files suffixed
`_1` through `_4`. -/
theorem livipy_c1_staging_fresh_suffixes :
    (∀ (stem ext : String) (st : List String),
       1 ≤ chooseIdx stem ext st
       ∧ destName stem ext (chooseIdx stem ext st) ∉ st
       ∧ (∀ m, 1 ≤ m → m < chooseIdx stem ext st → destName stem ext m ∈ st)
       ∧ copyFile stem ext st = st ++ [destName stem ext (chooseIdx stem ext st)])
    ∧ (∀ (o : Order) (st st' : List String), Order.copy_to_temp o st = .ok st' →
        (∃ t, st' = st ++ t) ∧ (st.Nodup → st'.Nodup))
    ∧ Order.copy_to_temp c1Order [] = .ok ["F_1.pdf", "F_2.pdf"]
    ∧ Order.copy_to_temp c1Order ["F_1.pdf", "F_2.pdf"]
        = .ok ["F_1.pdf", "F_2.pdf", "F_3.pdf", "F_4.pdf"]
    ∧ (["F_1.pdf", "F_2.pdf", "F_3.pdf", "F_4.pdf"] : List String).Nodup := by
  refine ⟨?_, ?_, rfl, rfl, by decide⟩
  · intro stem ext st
    obtain ⟨h1, h2, h3⟩ := chooseIdx_spec stem ext st
    exact ⟨h1, h2, h3, copyFile_eq stem ext st⟩
  · intro o st st' h
    by_cases hv : o.is_valid = true
    · rw [Order.copy_to_temp, if_pos hv] at h
      obtain ⟨ht, _, hnd⟩ := copyTimes_extends o.quantity o.filenames st st' h
      exact ⟨ht, hnd⟩
    · rw [Order.copy_to_temp, if_neg hv] at h
      have : st = st' := by injection h
      subst this
      exact ⟨⟨[], by simp⟩, fun h => h⟩

/-- Witness for C1 at concrete inputs: with `F_1.pdf` already staged the least
free index is 2, so index 1 is occupied; and a nodup directory stays nodup. -/
theorem livipy_c1_staging_fresh_suffixes_witness :
    destName "F" "pdf" 1 ∈ ["F_1.pdf"]
    ∧ (["F_1.pdf", "F_2.pdf"] : List String).Nodup :=
  ⟨(livipy_c1_staging_fresh_suffixes.1 "F" "pdf" ["F_1.pdf"]).2.2.1 1 le_rfl (by decide),
   (livipy_c1_staging_fresh_suffixes.2.1 c1Order [] ["F_1.pdf", "F_2.pdf"]
      livipy_c1_staging_fresh_suffixes.2.2.1).2 List.nodup_nil⟩

/-- Claim C2: `filename_lookup` returns exactly the first filename in listing
order whose extension-stripped stem equals the key, and `none` when no stem
equals the key; over `["ABC123.pdf","ABC123b.pdf"]`, key `"ABC123"` yields
`"ABC123.pdf"` and key `"ABC123a"` yields nothing. -/
theorem livipy_c2_lookup_exact_stem :
    (∀ (k : String) (L : List String) (f : String),
       filename_lookup k L = some f ↔
         ∃ l1 l2, L = l1 ++ f :: l2 ∧ splitextStem f = k ∧ ∀ g ∈ l1, splitextStem g ≠ k)
    ∧ (∀ (k : String) (L : List String),
       filename_lookup k L = none ↔ ∀ f ∈ L, splitextStem f ≠ k)
    ∧ filename_lookup "ABC123" ["ABC123.pdf", "ABC123b.pdf"] = some "ABC123.pdf"
    ∧ filename_lookup "ABC123a" ["ABC123.pdf", "ABC123b.pdf"] = none :=
  ⟨filename_lookup_some, filename_lookup_none, rfl, rfl⟩

/-- Witness for C2: the concrete first-match decomposition obtained by applying
the characterization at the listing `["ABC123.pdf","ABC123b.pdf"]`. -/
theorem livipy_c2_lookup_exact_stem_witness :
    ∃ l1 l2, (["ABC123.pdf", "ABC123b.pdf"] : List String) = l1 ++ "ABC123.pdf" :: l2
      ∧ splitextStem "ABC123.pdf" = "ABC123"
      ∧ ∀ g ∈ l1, splitextStem g ≠ "ABC123" :=
  (livipy_c2_lookup_exact_stem.1 "ABC123" ["ABC123.pdf", "ABC123b.pdf"] "ABC123.pdf").mp
    livipy_c2_lookup_exact_stem.2.2.1

/-- Claim C4 as amended: for a valid order whose resolved filenames all contain
exactly one dot (so the per-copy split succeeds), one run creates exactly
`quantity * set_size` files in the staging directory; an invalid order causes
no copies. -/
theorem livipy_c4_quantity_exact :
    (∀ (o : Order) (st : List String),
       o.is_valid = true →
       (∀ x ∈ o.filenames, ∃ s a b, x = some s ∧ pySplit '.' s.data = [a, b]) →
       o.filenames.length = o.set_size →
       ∃ st', Order.copy_to_temp o st = .ok st'
         ∧ st'.length = st.length + o.quantity * o.set_size)
    ∧ (∀ (o : Order) (st : List String), o.is_valid = false →
        Order.copy_to_temp o st = .ok st) := by
  constructor
  · intro o st hv hgood hlen
    obtain ⟨st', hst'⟩ := copyTimes_ok o.quantity o.filenames hgood st
    obtain ⟨_, hlenq, _⟩ := copyTimes_extends o.quantity o.filenames st st' hst'
    refine ⟨st', ?_, ?_⟩
    · rw [Order.copy_to_temp, if_pos hv]
      exact hst'
    · rw [hlenq, hlen]
  · intro o st hv
    rw [Order.copy_to_temp, if_neg (by simp [hv])]

/-- Counterexample to C4 as stated: a valid quantity-1 order whose resolved
filename `abc` has no dot makes the copier raise instead of producing exactly
one destination file. -/
theorem livipy_c4_counterexample :
    Order.copy_to_temp c4Order []
      = .error "ValueError: not enough values to unpack (expected 2, got 1)" := rfl

/-- Witness for the amended C4: quantity 3 with one well-formed resolved file
yields exactly 3 staged files. -/
theorem livipy_c4_quantity_exact_witness :
    ∃ st', Order.copy_to_temp c4GoodOrder [] = .ok st'
      ∧ st'.length = ([] : List String).length + c4GoodOrder.quantity * c4GoodOrder.set_size :=
  livipy_c4_quantity_exact.1 c4GoodOrder [] rfl
    (by
      intro x hx
      rw [show c4GoodOrder.filenames = [some "G.pdf"] from rfl, List.mem_singleton] at hx
      subst hx
      exact ⟨"G.pdf", ['G'], ['p', 'd', 'f'], rfl, by decide⟩)
    rfl

/-- Claim C9: a valid order holding a resolved filename that does not contain
exactly one dot makes the per-copy step raise a `ValueError` (the destination
split expects exactly a stem and an extension), although the lookup stage,
which strips only the final extension, can resolve such names: `a.b` resolves
to `a.b.pdf` and `abc` (no extension) resolves to `abc`, yet both make the
copier raise. -/
theorem livipy_c9_copy_stricter_than_lookup :
    (∀ (o : Order) (st : List String) (f : String),
       o.is_valid = true → some f ∈ o.filenames → f.data.count '.' ≠ 1 →
       1 ≤ o.quantity → ∃ e, Order.copy_to_temp o st = .error e)
    ∧ filename_lookup "a.b" ["a.b.pdf"] = some "a.b.pdf"
    ∧ copyFiles [some "a.b.pdf"] []
        = .error "ValueError: too many values to unpack (expected 2)"
    ∧ filename_lookup "abc" ["abc"] = some "abc"
    ∧ copyFiles [some "abc"] []
        = .error "ValueError: not enough values to unpack (expected 2, got 1)" := by
  refine ⟨?_, rfl, rfl, rfl, rfl⟩
  intro o st f hv hmem hcount hq
  obtain ⟨k, hk⟩ : ∃ k, o.quantity = k + 1 := ⟨o.quantity - 1, by omega⟩
  obtain ⟨e, he⟩ := copyFiles_err o.filenames st f hmem (count_ne_one_no_unpack f hcount)
  refine ⟨e, ?_⟩
  rw [Order.copy_to_temp, if_pos hv, hk, copyTimes, he]

/-- Witness for C9: the concrete valid order resolved to `a.b.pdf` makes the
copier raise. -/
theorem livipy_c9_copy_stricter_than_lookup_witness :
    ∃ e, Order.copy_to_temp c9Order [] = .error e :=
  livipy_c9_copy_stricter_than_lookup.1 c9Order [] "a.b.pdf" rfl (by decide) (by decide)
    (by decide)

/-- Claim C10: a manifest path whose last three characters are neither `pdf`
nor `csv` makes `OrderList.from_file` return nothing at all (no error, no
empty order list). -/
theorem livipy_c10_from_file_fallthrough :
    ∀ (sizes : List String) (pdfRows : List PdfRow) (csvRows : List CsvRow)
      (filename : String),
      lastThree filename ≠ "pdf" → lastThree filename ≠ "csv" →
      OrderList.from_file sizes pdfRows csvRows filename = none := by
  intro sizes pdfRows csvRows filename h1 h2
  rw [OrderList.from_file, if_neg h1, if_neg h2]

/-- Witness for C10 at the concrete path `orders.txt`. -/
theorem livipy_c10_from_file_fallthrough_witness :
    OrderList.from_file ["8x10"] [] [] "orders.txt" = none :=
  livipy_c10_from_file_fallthrough ["8x10"] [] [] "orders.txt" (by decide) (by decide)

/-- Claim C5: `get_set_size` returns the matched `Set Of <N>` value whenever the
pattern occurs (case-insensitively, anywhere in the text) and 1 otherwise; in
particular the three documented examples hold. -/
theorem livipy_c5_set_size_extractor :
    (∀ s : String, (∀ n, ¬ SetOfOccur s.data n) → get_set_size s = 1)
    ∧ (∀ (s : String) (n : Nat), SetOfOccur s.data n →
        ∃ m, SetOfOccur s.data m ∧ get_set_size s = m)
    ∧ get_set_size "Set Of 3 Ornaments" = 3
    ∧ get_set_size "Standard Mug" = 1
    ∧ get_set_size "set OF 5" = 5 := by
  refine ⟨?_, ?_, rfl, rfl, rfl⟩
  · intro s hno
    rw [get_set_size]
    cases h : setOfSearch s.data with
    | none => rfl
    | some v => exact absurd (setOfSearch_sound s.data v h) (hno v)
  · intro s n h
    have hne := setOfSearch_complete s.data n h
    cases hm : setOfSearch s.data with
    | none => exact absurd hm hne
    | some m =>
      refine ⟨m, setOfSearch_sound s.data m hm, ?_⟩
      rw [get_set_size, hm]
      rfl

/-- Witness for C5: the pattern occurrence in `"set OF 5"` and the extracted
value. -/
theorem livipy_c5_set_size_extractor_witness :
    ∃ m, SetOfOccur "set OF 5".data m ∧ get_set_size "set OF 5" = m :=
  livipy_c5_set_size_extractor.2.1 "set OF 5" 5
    ⟨[], 's', 'e', 't', 'O', 'F', ['5'], [], by decide, Or.inl rfl, Or.inl rfl,
      Or.inl rfl, Or.inr rfl, Or.inr rfl, by decide, by decide, by simp, by decide⟩

/-- Claim C3 as amended: against a listing of nonempty filenames and starting
from empty filename slots, a set order with SKU `s` and `set_size ≤ 26` gets
exactly `set_size` lookups with keys `s+a`, `s+b`, ... stored positionally, and
`is_valid` holds iff every slot resolved; a non-set order gets exactly one
lookup with key `s` in slot 0.  (Beyond 26 the lettered indexing raises
`IndexError`, refuting the unbounded claim.) -/
theorem livipy_c3_set_lookup_keys :
    ∀ (L : List String) (o : Order) (s : String),
      "" ∉ L → o.filenames = [] → o.sku = some s →
      (o.is_set = true → o.set_size ≤ 26 →
         ∃ o', Order.confirm_filename L o = .ok o'
           ∧ o'.filenames = (List.range o.set_size).map
               (fun i => filename_lookup (s.push (letterOf i)) L)
           ∧ (o'.is_valid = true ↔ ∀ x ∈ o'.filenames, ∃ f, x = some f))
      ∧ (o.is_set = false →
         ∃ o', Order.confirm_filename L o = .ok o'
           ∧ o'.filenames = [filename_lookup s L]
           ∧ (o'.is_valid = true ↔ ∀ x ∈ o'.filenames, ∃ f, x = some f)) := by
  intro L o s hL hfn hsku
  constructor
  · intro hset hle
    have hseq := setLookupsSeq_ok L s o.set_size 0 (by omega)
    have hzero : (fun k => filename_lookup (s.push (letterOf (0 + k))) L)
        = (fun k => filename_lookup (s.push (letterOf k)) L) := by
      funext k
      rw [Nat.zero_add]
    rw [hzero] at hseq
    have hmap : ∀ x ∈ (List.range o.set_size).map
        (fun i => filename_lookup (s.push (letterOf i)) L), ∀ f, x = some f → f ∈ L := by
      intro x hx f hxf
      rw [List.mem_map] at hx
      obtain ⟨k, _, hk⟩ := hx
      exact lookup_mem (s.push (letterOf k)) L f (hk.trans hxf)
    have hconf := confirm_set_eq L o s _ hset hsku hseq
    refine ⟨_, hconf, ?_, ?_⟩
    · simp [hfn]
    · simp only [hfn, List.nil_append]
      exact pyAll_iff L hL _ hmap
  · intro hset
    have hconf := confirm_nonset_eq L o hset
    refine ⟨_, hconf, ?_, ?_⟩
    · simp [hfn, skuLookup, hsku]
    · simp only [hfn, List.nil_append, hsku]
      apply pyAll_iff L hL
      intro x hx f hxf
      rw [List.mem_singleton] at hx
      subst hx
      exact lookup_mem s L f ((show skuLookup L (some s) = filename_lookup s L from rfl)
        ▸ hxf)

/-- Counterexample to C3 as stated: reconciling a set order with `set_size` 27
raises `IndexError` from `string.ascii_lowercase[26]` instead of performing 27
lookups. -/
theorem livipy_c3_counterexample :
    Order.confirm_filename [] c3BadOrder = .error "IndexError: string index out of range" :=
  rfl

/-- Witness for the amended C3: a concrete set order of size 2 reconciled
against `["xa.pdf", "xb.pdf"]`. -/
theorem livipy_c3_set_lookup_keys_witness :
    ∃ o', Order.confirm_filename ["xa.pdf", "xb.pdf"] c3Order = .ok o'
      ∧ o'.filenames = (List.range c3Order.set_size).map
          (fun i => filename_lookup ("x".push (letterOf i)) ["xa.pdf", "xb.pdf"])
      ∧ (o'.is_valid = true ↔ ∀ x ∈ o'.filenames, ∃ f, x = some f) :=
  (livipy_c3_set_lookup_keys ["xa.pdf", "xb.pdf"] c3Order "x" (by decide) rfl rfl).1
    rfl (by decide)

/-- Claim C6 as amended: reconciliation does not crash for set sizes up to 26
(an unresolved slot only makes the order invalid); beyond 26 the lettered key
construction `sku + ascii_lowercase[i]` raises `IndexError`, so an arbitrarily
large extracted set size does crash. -/
theorem livipy_c6_bounded_no_crash :
    ∀ (L : List String) (o : Order),
      (o.is_set = true → ∃ s, o.sku = some s) → o.set_size ≤ 26 →
      ∃ o', Order.confirm_filename L o = .ok o'
        ∧ ((∃ x ∈ o'.filenames, x = none) → o'.is_valid = false) := by
  intro L o hsku hle
  by_cases hset : o.is_set = true
  · obtain ⟨s, hs⟩ := hsku hset
    have hseq := setLookupsSeq_ok L s o.set_size 0 (by omega)
    have hconf := confirm_set_eq L o s _ hset hs hseq
    refine ⟨_, hconf, ?_⟩
    rintro ⟨x, hx, hxn⟩
    subst hxn
    exact pyAll_of_none _ hx
  · have hset' : o.is_set = false := by
      cases h : o.is_set
      · rfl
      · exact absurd h hset
    have hconf := confirm_nonset_eq L o hset'
    refine ⟨_, hconf, ?_⟩
    rintro ⟨x, hx, hxn⟩
    subst hxn
    exact pyAll_of_none _ hx

/-- Counterexample to C6 as stated: an item description yielding set size 30
makes reconciliation raise `IndexError` instead of surfacing an invalid order. -/
theorem livipy_c6_counterexample :
    (Order.make ["8x10"] "Set Of 30 Mugs" "Mugs" "8x10" "d" 1 (some "M")).bind
      (Order.confirm_filename []) = .error "IndexError: string index out of range" :=
  rfl

/-- Witness for the amended C6: a concrete set order of size 3 reconciles
without crashing against an empty listing. -/
theorem livipy_c6_bounded_no_crash_witness :
    ∃ o', Order.confirm_filename [] c6Order = .ok o'
      ∧ ((∃ x ∈ o'.filenames, x = none) → o'.is_valid = false) :=
  livipy_c6_bounded_no_crash [] c6Order (fun _ => ⟨"K", rfl⟩) (by decide)

theorem confirm_set_eq2 (L : List String) (o : Order) (r : List (Option String))
    (hset : o.is_set = true) (hseq : setLookupsSeq L o.sku 0 o.set_size = .ok r) :
    Order.confirm_filename L o
      = .ok { o with
              filenames := o.filenames ++ r
              is_valid := pyAll (o.filenames ++ r) } := by
  rw [Order.confirm_filename, if_pos hset, hseq]

theorem confirm_set_err (L : List String) (o : Order) (e : String)
    (hset : o.is_set = true) (hseq : setLookupsSeq L o.sku 0 o.set_size = .error e) :
    Order.confirm_filename L o = .error e := by
  rw [Order.confirm_filename, if_pos hset, hseq]

/-- Claim C7 as amended: rerunning reconciliation on already-reconciled records
leaves `isValid` unchanged, but does not leave `filenames` unchanged: the
lookup results are appended again, so a record reconciled from empty slots ends
the second run with its slot list doubled. -/
theorem livipy_c7_reconciliation_rerun :
    ∀ (L : List String) (o o1 o2 : Order),
      Order.confirm_filename L o = .ok o1 → Order.confirm_filename L o1 = .ok o2 →
      o2.is_valid = o1.is_valid
        ∧ (o.filenames = [] → o2.filenames = o1.filenames ++ o1.filenames) := by
  intro L o o1 o2 h1 h2
  by_cases hset : o.is_set = true
  · cases hseq : setLookupsSeq L o.sku 0 o.set_size with
    | error e =>
      rw [confirm_set_err L o e hset hseq] at h1
      exact absurd h1 (by simp)
    | ok r =>
      rw [confirm_set_eq2 L o r hset hseq] at h1
      injection h1 with ho1
      subst ho1
      have hset2 : ({ o with
          filenames := o.filenames ++ r
          is_valid := pyAll (o.filenames ++ r) } : Order).is_set = true := hset
      have hseq2 : setLookupsSeq L ({ o with
          filenames := o.filenames ++ r
          is_valid := pyAll (o.filenames ++ r) } : Order).sku 0
          ({ o with
          filenames := o.filenames ++ r
          is_valid := pyAll (o.filenames ++ r) } : Order).set_size = .ok r := hseq
      rw [confirm_set_eq2 L _ r hset2 hseq2] at h2
      injection h2 with ho2
      subst ho2
      constructor
      · show pyAll ((o.filenames ++ r) ++ r) = pyAll (o.filenames ++ r)
        rw [pyAll_append (o.filenames ++ r) r, pyAll_append o.filenames r,
          Bool.and_assoc, Bool.and_self]
      · intro hfn
        show (o.filenames ++ r) ++ r = (o.filenames ++ r) ++ (o.filenames ++ r)
        rw [hfn]
        simp
  · have hset' : o.is_set = false := by
      cases h : o.is_set
      · rfl
      · exact absurd h hset
    rw [confirm_nonset_eq L o hset'] at h1
    injection h1 with ho1
    subst ho1
    have hset2 : ({ o with
        filenames := o.filenames ++ [skuLookup L o.sku]
        is_valid := pyAll (o.filenames ++ [skuLookup L o.sku]) } : Order).is_set
        = false := hset'
    rw [confirm_nonset_eq L _ hset2] at h2
    injection h2 with ho2
    subst ho2
    constructor
    · show pyAll ((o.filenames ++ [skuLookup L o.sku]) ++ [skuLookup L o.sku])
        = pyAll (o.filenames ++ [skuLookup L o.sku])
      rw [pyAll_append (o.filenames ++ [skuLookup L o.sku]) [skuLookup L o.sku],
        pyAll_append o.filenames [skuLookup L o.sku], Bool.and_assoc, Bool.and_self]
    · intro hfn
      show (o.filenames ++ [skuLookup L o.sku]) ++ [skuLookup L o.sku]
        = (o.filenames ++ [skuLookup L o.sku]) ++ (o.filenames ++ [skuLookup L o.sku])
      rw [hfn]
      simp

/-- Counterexample to C7 as stated: reconciling the same record twice against
the same listing does not give the same `filenames` as reconciling it once
(the second run appends duplicate entries: `decide` evaluates the two slot
lists unequal). -/
theorem livipy_c7_counterexample :
    Order.confirm_filename ["A.pdf"] c7Order = .ok c7Once
    ∧ (Order.confirm_filename ["A.pdf"] c7Order).bind (Order.confirm_filename ["A.pdf"])
        = .ok c7Twice
    ∧ decide (c7Twice.filenames = c7Once.filenames) = false :=
  ⟨rfl, rfl, by decide⟩

/-- Witness for the amended C7 at a concrete record and listing: `isValid`
survives the rerun while `filenames` doubles. -/
theorem livipy_c7_reconciliation_rerun_witness :
    c7Twice.is_valid = c7Once.is_valid
      ∧ (c7Order.filenames = [] → c7Twice.filenames = c7Once.filenames ++ c7Once.filenames) :=
  livipy_c7_reconciliation_rerun ["A.pdf"] c7Order c7Once c7Twice rfl rfl

/-- Claim C8 as amended: any fatal row failure (missing delimiters in the
composite item name, or an unrecognized size) aborts the whole PDF load, and a
successful load never drops a row; but the raised error does not name the
offending record (the delimiter failure is a generic unpack `ValueError`). -/
theorem livipy_c8_fatal_aborts_load :
    (∀ (sizes : List String) (rows : List PdfRow),
       (∃ r ∈ rows, ∃ e, Order.from_pdf_row sizes r = .error e) →
       ∃ e, OrderList.from_pdf sizes rows = .error e)
    ∧ (∀ (sizes : List String) (rows : List PdfRow) (ol : OrderList),
       OrderList.from_pdf sizes rows = .ok ol → ol.orders.length = rows.length) := by
  constructor
  · intro sizes rows h
    obtain ⟨e, he⟩ := ordersFromRows_err sizes rows h
    refine ⟨e, ?_⟩
    rw [OrderList.from_pdf, he]
  · intro sizes rows ol h
    rw [OrderList.from_pdf] at h
    cases ho : ordersFromRows sizes rows with
    | error e =>
      rw [ho] at h
      exact absurd h (by simp)
    | ok os =>
      rw [ho] at h
      injection h with h'
      rw [← h']
      exact ordersFromRows_len sizes rows os ho

/-- Counterexample to C8 as stated: the row with item name `Widget` (no
delimiter) and SKU `ZQ99X` aborts with a generic unpack error that names
neither the SKU nor the item. -/
theorem livipy_c8_counterexample :
    Order.from_pdf_row ["8x10"] c8Row
      = .error "ValueError: not enough values to unpack (expected 2, got 1)"
    ∧ hasSub "ZQ99X".data
        "ValueError: not enough values to unpack (expected 2, got 1)".data = false
    ∧ hasSub "Widget".data
        "ValueError: not enough values to unpack (expected 2, got 1)".data = false :=
  ⟨rfl, rfl, rfl⟩

/-- Witness for the amended C8: the failing row makes the whole one-row load
abort. -/
theorem livipy_c8_fatal_aborts_load_witness :
    ∃ e, OrderList.from_pdf ["8x10"] [c8Row] = .error e :=
  livipy_c8_fatal_aborts_load.1 ["8x10"] [c8Row]
    ⟨c8Row, by simp, "ValueError: not enough values to unpack (expected 2, got 1)", rfl⟩
